import Mathlib

deriving instance DecidableEq for Except

/-!
Shallow embedding of the wol (Wake-on-LAN) tool: hardware-address parsing,
magic-packet construction, and datagram transmission, together with theorems
about the properties of these operations.

Strings are modelled as `List Char`, byte buffers as `List Nat` (every byte
produced is below 256), and the network as an oracle (`NetBehavior`) plus an
explicit trace of socket events.
-/

namespace Wol

/-- `Mac(u8, u8, u8, u8, u8, u8)`: a six-octet hardware address. -/
structure Mac where
  m0 : Nat
  m1 : Nat
  m2 : Nat
  m3 : Nat
  m4 : Nat
  m5 : Nat
deriving DecidableEq

/-- `Mac::new`: build a `Mac` from a six-tuple of octets. -/
def Mac.new (a : Nat × Nat × Nat × Nat × Nat × Nat) : Mac :=
  ⟨a.1, a.2.1, a.2.2.1, a.2.2.2.1, a.2.2.2.2.1, a.2.2.2.2.2⟩

/-- `Mac::as_bytes`: the six octets as a byte buffer (`[u8; 6]`). -/
def Mac.as_bytes (m : Mac) : List Nat :=
  [m.m0, m.m1, m.m2, m.m3, m.m4, m.m5]

/-- `WolError`: failure modes of packet construction. -/
inductive WolError where
  | InvalidBufferLength
  | InvalidPacketSize
deriving DecidableEq

/-- `ParseError`: failure modes of hardware-address parsing. -/
inductive ParseError where
  | FailedConversion
  | InvalidInput
  | InvalidLength
deriving DecidableEq

/-- The loop `for _ in 0..16 { packet.extend_from_slice(&payload) }`:
append `payload` to the accumulator `n` times. -/
def repeatAppend : Nat → List Nat → List Nat → List Nat
  | 0, _, acc => acc
  | n + 1, payload, acc => repeatAppend n payload (acc ++ payload)

/-- `build_packet`: 6-byte `0xff` preamble, then the address bytes appended 16
times; both defensive length checks of the source are kept. -/
def build_packet (mac : Mac) : Except WolError (List Nat) :=
  if (Mac.as_bytes mac).length = 6 then
    if (repeatAppend 16 (Mac.as_bytes mac) (List.replicate 6 0xff)).length = 102 then
      Except.ok (repeatAppend 16 (Mac.as_bytes mac) (List.replicate 6 0xff))
    else Except.error WolError.InvalidPacketSize
  else Except.error WolError.InvalidBufferLength

theorem repeatAppend_eq (n : Nat) (payload : List Nat) : ∀ acc : List Nat,
    repeatAppend n payload acc = acc ++ (List.replicate n payload).flatten := by
  induction n with
  | zero => intro acc; simp [repeatAppend]
  | succ k ih =>
      intro acc
      simp [repeatAppend, ih, List.replicate_succ, List.append_assoc]

theorem as_bytes_length (m : Mac) : (Mac.as_bytes m).length = 6 := rfl

theorem join_replicate_as_bytes_length (m : Mac) :
    ((List.replicate 16 (Mac.as_bytes m)).flatten).length = 96 := by
  simp [List.length_flatten, List.map_replicate, List.sum_replicate, Mac.as_bytes]

theorem build_packet_eq (m : Mac) :
    build_packet m =
      Except.ok (List.replicate 6 0xff ++ (List.replicate 16 (Mac.as_bytes m)).flatten) := by
  have h1 : (Mac.as_bytes m).length = 6 := as_bytes_length m
  have h2 : (repeatAppend 16 (Mac.as_bytes m) (List.replicate 6 0xff)).length = 102 := by
    rw [repeatAppend_eq]
    simp [List.length_flatten, List.map_replicate, List.sum_replicate, Mac.as_bytes]
  unfold build_packet
  rw [if_pos h1, if_pos h2, repeatAppend_eq]

/-- C1: for every six-octet hardware address, `build_packet` returns `Ok` with
a 102-byte sequence whose first 6 bytes are `0xFF` and whose remaining 96 bytes
are the address repeated 16 times in order; no error variant is returned. -/
theorem C1_build_packet_shape (m : Mac) :
    ∃ p, build_packet m = Except.ok p ∧ p.length = 102 ∧
      p.take 6 = List.replicate 6 0xff ∧
      p.drop 6 = (List.replicate 16 (Mac.as_bytes m)).flatten := by
  refine ⟨List.replicate 6 0xff ++ (List.replicate 16 (Mac.as_bytes m)).flatten,
    build_packet_eq m, ?_, ?_, ?_⟩
  · simp [List.length_flatten, List.map_replicate, List.sum_replicate, Mac.as_bytes]
  · rw [List.take_left' (by simp)]
  · rw [List.drop_left' (by simp)]

/-- The character class `[0-9A-Fa-f]` of the validation regex
`^([0-9A-Fa-f]{2}:){5}([0-9A-Fa-f]{2})$`; 48–57, 65–70 and 97–102 are the
code points of `0`–`9`, `A`–`F` and `a`–`f`. -/
def isHexDigitChar (c : Char) : Bool :=
  (48 ≤ c.toNat && c.toNat ≤ 57) || (65 ≤ c.toNat && c.toNat ≤ 70) ||
    (97 ≤ c.toNat && c.toNat ≤ 102)

/-- Matcher for `([0-9A-Fa-f]{2}:){n}([0-9A-Fa-f]{2})` anchored at both ends:
`n + 1` two-hex-digit groups separated by colons. -/
def matchGroups : Nat → List Char → Bool
  | 0, [a, b] => isHexDigitChar a && isHexDigitChar b
  | n + 1, a :: b :: c :: rest =>
      isHexDigitChar a && isHexDigitChar b && (c == ':') && matchGroups n rest
  | _, _ => false

/-- `valid_mac.is_match(s)` for the regex `^([0-9A-Fa-f]{2}:){5}([0-9A-Fa-f]{2})$`. -/
def valid_mac_is_match (s : List Char) : Bool :=
  matchGroups 5 s

/-- `s.split(':')`: the maximal colon-free segments of `s`, in order; the empty
string yields one empty segment, as Rust's `split` does. -/
def splitOnColon : List Char → List (List Char)
  | [] => [[]]
  | c :: rest =>
    match splitOnColon rest with
    | [] => [[]]
    | g :: gs => if c = ':' then [] :: g :: gs else (c :: g) :: gs

/-- The value of one character as a base-16 digit, `none` when it is not one.
48, 65 and 97 are the code points of `0`, `A` and `a`. -/
def hexDigitVal (c : Char) : Option Nat :=
  if 48 ≤ c.toNat ∧ c.toNat ≤ 57 then some (c.toNat - 48)
  else if 65 ≤ c.toNat ∧ c.toNat ≤ 70 then some (c.toNat - 65 + 10)
  else if 97 ≤ c.toNat ∧ c.toNat ≤ 102 then some (c.toNat - 97 + 10)
  else none

/-- Digit-accumulation loop of `u8::from_str_radix(_, 16)`: `none` on a
non-digit or on exceeding the `u8` range. -/
def from_str_radix_go : List Char → Nat → Option Nat
  | [], acc => some acc
  | c :: rest, acc =>
    match hexDigitVal c with
    | none => none
    | some d => if acc * 16 + d ≤ 255 then from_str_radix_go rest (acc * 16 + d) else none

/-- `u8::from_str_radix(s, 16)`: rejects the empty string, allows one leading
`+`, then accumulates base-16 digits with a `u8` range check. -/
def from_str_radix_16_u8 : List Char → Option Nat
  | [] => none
  | c :: rest =>
    if c = '+' then
      match rest with
      | [] => none
      | _ => from_str_radix_go rest 0
    else from_str_radix_go (c :: rest) 0

/-- `split(':').map(u8::from_str_radix(_, 16)).collect::<Result<Vec<_>, _>>()`:
all segment conversions, failing if any segment fails. -/
def collectResults : List (List Char) → Option (List Nat)
  | [] => some []
  | g :: gs =>
    match from_str_radix_16_u8 g with
    | none => none
    | some v =>
      match collectResults gs with
      | none => none
      | some vs => some (v :: vs)

/-- `Mac::from_str`: regex check, split on `:`, per-segment conversion,
segment-count check, then the six octets in textual order. -/
def Mac.from_str (s : List Char) : Except ParseError Mac :=
  if valid_mac_is_match s then
    match collectResults (splitOnColon s) with
    | some r =>
      if h : r.length = 6 then
        Except.ok (Mac.new (r.get ⟨0, by omega⟩, r.get ⟨1, by omega⟩, r.get ⟨2, by omega⟩,
          r.get ⟨3, by omega⟩, r.get ⟨4, by omega⟩, r.get ⟨5, by omega⟩))
      else Except.error ParseError.InvalidLength
    | none => Except.error ParseError.FailedConversion
  else Except.error ParseError.InvalidInput

/-- Specification-side reading of the structural pattern: `n + 1` groups of
exactly two hex digits separated by single colons. -/
def groupsSpec : Nat → List Char → Prop
  | 0, cs => ∃ a b, isHexDigitChar a = true ∧ isHexDigitChar b = true ∧ cs = [a, b]
  | n + 1, cs => ∃ a b rest, isHexDigitChar a = true ∧ isHexDigitChar b = true ∧
      cs = a :: b :: ':' :: rest ∧ groupsSpec n rest

/-- Specification-side value of a hex digit (`0` for a non-digit). -/
def hexVal (c : Char) : Nat :=
  (hexDigitVal c).getD 0

theorem isHex_ne_colon {c : Char} (h : isHexDigitChar c = true) : c ≠ ':' := by
  intro hc
  subst hc
  exact absurd h (by decide)

theorem isHex_ne_plus {c : Char} (h : isHexDigitChar c = true) : c ≠ '+' := by
  intro hc
  subst hc
  exact absurd h (by decide)

theorem hexDigitVal_isSome {c : Char} (h : isHexDigitChar c = true) :
    ∃ d, hexDigitVal c = some d ∧ d ≤ 15 := by
  unfold isHexDigitChar at h
  simp only [Bool.or_eq_true, Bool.and_eq_true, decide_eq_true_eq] at h
  unfold hexDigitVal
  rcases h with (⟨h1, h2⟩ | ⟨h1, h2⟩) | ⟨h1, h2⟩
  · exact ⟨c.toNat - 48, by rw [if_pos ⟨h1, h2⟩], by omega⟩
  · refine ⟨c.toNat - 65 + 10, ?_, by omega⟩
    rw [if_neg (by omega), if_pos ⟨h1, h2⟩]
  · refine ⟨c.toNat - 97 + 10, ?_, by omega⟩
    rw [if_neg (by omega), if_neg (by omega), if_pos ⟨h1, h2⟩]

theorem hexVal_eq {c : Char} {d : Nat} (hd : hexDigitVal c = some d) : hexVal c = d := by
  unfold hexVal
  rw [hd]
  rfl

theorem from_str_radix_go_cons {c : Char} {d : Nat} (rest : List Char) (acc : Nat)
    (hd : hexDigitVal c = some d) :
    from_str_radix_go (c :: rest) acc =
      if acc * 16 + d ≤ 255 then from_str_radix_go rest (acc * 16 + d) else none := by
  simp [from_str_radix_go, hd]

theorem from_str_radix_pair {a b : Char} (ha : isHexDigitChar a = true)
    (hb : isHexDigitChar b = true) :
    from_str_radix_16_u8 [a, b] = some (hexVal a * 16 + hexVal b) := by
  obtain ⟨da, hda, hda15⟩ := hexDigitVal_isSome ha
  obtain ⟨db, hdb, hdb15⟩ := hexDigitVal_isSome hb
  rw [hexVal_eq hda, hexVal_eq hdb]
  simp only [from_str_radix_16_u8]
  rw [if_neg (isHex_ne_plus ha)]
  rw [from_str_radix_go_cons _ _ hda, if_pos (by omega)]
  rw [from_str_radix_go_cons _ _ hdb, if_pos (by omega)]
  simp only [from_str_radix_go]
  congr 1
  omega

theorem splitOnColon_ne_nil (cs : List Char) : splitOnColon cs ≠ [] := by
  cases cs with
  | nil => simp [splitOnColon]
  | cons c rest =>
    unfold splitOnColon
    cases h : splitOnColon rest with
    | nil => simp
    | cons g gs => by_cases hc : c = ':' <;> simp [hc]

theorem splitOnColon_pair {a b : Char} (ha : a ≠ ':') (hb : b ≠ ':') :
    splitOnColon [a, b] = [[a, b]] := by
  simp [splitOnColon, ha, hb]

theorem splitOnColon_group {a b : Char} (ha : a ≠ ':') (hb : b ≠ ':') (rest : List Char) :
    splitOnColon (a :: b :: ':' :: rest) = [a, b] :: splitOnColon rest := by
  cases h : splitOnColon rest with
  | nil => exact absurd h (splitOnColon_ne_nil rest)
  | cons g gs => simp [splitOnColon, h, ha, hb]

theorem matchGroups_iff : ∀ (n : Nat) (cs : List Char),
    matchGroups n cs = true ↔ groupsSpec n cs := by
  intro n
  induction n with
  | zero =>
    intro cs
    constructor
    · intro h
      rcases cs with _ | ⟨a, _ | ⟨b, _ | ⟨c, rest⟩⟩⟩
      · simp [matchGroups] at h
      · simp [matchGroups] at h
      · simp only [matchGroups, Bool.and_eq_true] at h
        exact ⟨a, b, h.1, h.2, rfl⟩
      · simp [matchGroups] at h
    · rintro ⟨a, b, ha, hb, rfl⟩
      simp [matchGroups, ha, hb]
  | succ k ih =>
    intro cs
    constructor
    · intro h
      rcases cs with _ | ⟨a, _ | ⟨b, _ | ⟨c, rest⟩⟩⟩
      · simp [matchGroups] at h
      · simp [matchGroups] at h
      · simp [matchGroups] at h
      · simp only [matchGroups, Bool.and_eq_true, beq_iff_eq] at h
        obtain ⟨⟨⟨ha, hb⟩, hc⟩, hrest⟩ := h
        subst hc
        exact ⟨a, b, rest, ha, hb, rfl, (ih rest).mp hrest⟩
    · rintro ⟨a, b, rest, ha, hb, rfl, hrest⟩
      simp [matchGroups, ha, hb, (ih rest).mpr hrest]

theorem collect_of_groupsSpec : ∀ (n : Nat) (cs : List Char), groupsSpec n cs →
    ∃ vs, collectResults (splitOnColon cs) = some vs ∧ vs.length = n + 1 := by
  intro n
  induction n with
  | zero =>
    rintro cs ⟨a, b, ha, hb, rfl⟩
    rw [splitOnColon_pair (isHex_ne_colon ha) (isHex_ne_colon hb)]
    refine ⟨[hexVal a * 16 + hexVal b], ?_, rfl⟩
    simp [collectResults, from_str_radix_pair ha hb]
  | succ k ih =>
    rintro cs ⟨a, b, rest, ha, hb, rfl, hrest⟩
    rw [splitOnColon_group (isHex_ne_colon ha) (isHex_ne_colon hb)]
    obtain ⟨vs, hvs, hlen⟩ := ih rest hrest
    refine ⟨(hexVal a * 16 + hexVal b) :: vs, ?_, by simp [hlen]⟩
    simp [collectResults, from_str_radix_pair ha hb, hvs]

/-- C2: every string of exactly six 2-hex-digit groups separated by colons
(any case mix) parses to the six octets, each read base-16, in textual order. -/
theorem C2_parse_valid_groups (a1 b1 a2 b2 a3 b3 a4 b4 a5 b5 a6 b6 : Char)
    (h1 : isHexDigitChar a1 = true) (h2 : isHexDigitChar b1 = true)
    (h3 : isHexDigitChar a2 = true) (h4 : isHexDigitChar b2 = true)
    (h5 : isHexDigitChar a3 = true) (h6 : isHexDigitChar b3 = true)
    (h7 : isHexDigitChar a4 = true) (h8 : isHexDigitChar b4 = true)
    (h9 : isHexDigitChar a5 = true) (h10 : isHexDigitChar b5 = true)
    (h11 : isHexDigitChar a6 = true) (h12 : isHexDigitChar b6 = true) :
    Mac.from_str [a1, b1, ':', a2, b2, ':', a3, b3, ':', a4, b4, ':', a5, b5, ':', a6, b6] =
      Except.ok (Mac.new (hexVal a1 * 16 + hexVal b1, hexVal a2 * 16 + hexVal b2,
        hexVal a3 * 16 + hexVal b3, hexVal a4 * 16 + hexVal b4,
        hexVal a5 * 16 + hexVal b5, hexVal a6 * 16 + hexVal b6)) := by
  have hm : valid_mac_is_match
      [a1, b1, ':', a2, b2, ':', a3, b3, ':', a4, b4, ':', a5, b5, ':', a6, b6] = true := by
    simp [valid_mac_is_match, matchGroups, h1, h2, h3, h4, h5, h6, h7, h8, h9, h10, h11, h12]
  have hsplit : splitOnColon
      [a1, b1, ':', a2, b2, ':', a3, b3, ':', a4, b4, ':', a5, b5, ':', a6, b6]
      = [[a1, b1], [a2, b2], [a3, b3], [a4, b4], [a5, b5], [a6, b6]] := by
    rw [splitOnColon_group (isHex_ne_colon h1) (isHex_ne_colon h2),
      splitOnColon_group (isHex_ne_colon h3) (isHex_ne_colon h4),
      splitOnColon_group (isHex_ne_colon h5) (isHex_ne_colon h6),
      splitOnColon_group (isHex_ne_colon h7) (isHex_ne_colon h8),
      splitOnColon_group (isHex_ne_colon h9) (isHex_ne_colon h10),
      splitOnColon_pair (isHex_ne_colon h11) (isHex_ne_colon h12)]
  have hcollect : collectResults [[a1, b1], [a2, b2], [a3, b3], [a4, b4], [a5, b5], [a6, b6]]
      = some [hexVal a1 * 16 + hexVal b1, hexVal a2 * 16 + hexVal b2,
          hexVal a3 * 16 + hexVal b3, hexVal a4 * 16 + hexVal b4,
          hexVal a5 * 16 + hexVal b5, hexVal a6 * 16 + hexVal b6] := by
    simp [collectResults, from_str_radix_pair h1 h2, from_str_radix_pair h3 h4,
      from_str_radix_pair h5 h6, from_str_radix_pair h7 h8, from_str_radix_pair h9 h10,
      from_str_radix_pair h11 h12]
  unfold Mac.from_str
  rw [if_pos hm, hsplit, hcollect]
  simp [Mac.new, List.get]

/-- Witness for C2 at `"ff:ff:ff:ff:ff:ff"`, which parses to six `255` octets. -/
theorem C2_parse_valid_groups_witness :
    Mac.from_str ['f', 'f', ':', 'f', 'f', ':', 'f', 'f', ':', 'f', 'f', ':', 'f', 'f', ':',
      'f', 'f'] = Except.ok (Mac.new (255, 255, 255, 255, 255, 255)) :=
  (C2_parse_valid_groups 'f' 'f' 'f' 'f' 'f' 'f' 'f' 'f' 'f' 'f' 'f' 'f'
    (by decide) (by decide) (by decide) (by decide) (by decide) (by decide)
    (by decide) (by decide) (by decide) (by decide) (by decide) (by decide)).trans
    (congrArg Except.ok (by decide))

/-- C3: every string that is not six colon-separated 2-hex-digit groups is
rejected with `ParseError.InvalidInput`. -/
theorem C3_parse_invalid_input (s : List Char) (h : ¬ groupsSpec 5 s) :
    Mac.from_str s = Except.error ParseError.InvalidInput := by
  have hm : valid_mac_is_match s = false := by
    cases hv : valid_mac_is_match s
    · rfl
    · exact absurd ((matchGroups_iff 5 s).mp hv) h
  unfold Mac.from_str
  rw [hm]
  simp

/-- Witness for C3 at the malformed input `":::::"`. -/
theorem C3_parse_invalid_input_witness :
    Mac.from_str [':', ':', ':', ':', ':'] = Except.error ParseError.InvalidInput :=
  C3_parse_invalid_input [':', ':', ':', ':', ':'] (fun hs =>
    absurd ((matchGroups_iff 5 [':', ':', ':', ':', ':']).mpr hs) (by decide))

/-- C5: the defensive branches are unreachable: on every input, parsing either
succeeds or fails with `InvalidInput`; `InvalidLength` and `FailedConversion`
are never produced. -/
theorem C5_defensive_branches_unreachable (s : List Char) :
    (∃ m, Mac.from_str s = Except.ok m) ∨
      Mac.from_str s = Except.error ParseError.InvalidInput := by
  cases hv : valid_mac_is_match s with
  | false =>
    right
    unfold Mac.from_str
    rw [hv]
    simp
  | true =>
    left
    obtain ⟨vs, hvs, hlen⟩ := collect_of_groupsSpec 5 s ((matchGroups_iff 5 s).mp hv)
    have hlen6 : vs.length = 6 := by omega
    unfold Mac.from_str
    rw [if_pos hv, hvs]
    simp [hlen6]

/-- Two characters that are equal, or are the upper- and lower-case form of
one hex letter `A`–`F`/`a`–`f` (code points 65–70 and 97–102, offset 32). -/
def sameModCase (c d : Char) : Prop :=
  c = d ∨
    (65 ≤ c.toNat ∧ c.toNat ≤ 70 ∧ d.toNat = c.toNat + 32) ∨
    (97 ≤ c.toNat ∧ c.toNat ≤ 102 ∧ c.toNat = d.toNat + 32)

instance instDecSameModCase (c d : Char) : Decidable (sameModCase c d) := by
  unfold sameModCase
  infer_instance

/-- Two strings that differ only in the letter case of their hex digits. -/
def sameModCaseList : List Char → List Char → Prop
  | [], [] => True
  | c :: cs, d :: ds => sameModCase c d ∧ sameModCaseList cs ds
  | _, _ => False

instance instDecSameModCaseList : (cs ds : List Char) → Decidable (sameModCaseList cs ds)
  | [], [] => isTrue trivial
  | [], _ :: _ => isFalse (fun h => h)
  | _ :: _, [] => isFalse (fun h => h)
  | c :: cs, d :: ds =>
    @instDecidableAnd _ _ (instDecSameModCase c d) (instDecSameModCaseList cs ds)

/-- Segment lists that are pointwise `sameModCaseList`. -/
def sameModCaseLists : List (List Char) → List (List Char) → Prop
  | [], [] => True
  | g :: gs, g' :: gs' => sameModCaseList g g' ∧ sameModCaseLists gs gs'
  | _, _ => False

theorem sameModCaseList_nil_right {ds : List Char} (h : sameModCaseList [] ds) : ds = [] := by
  cases ds with
  | nil => rfl
  | cons d ds => exact False.elim h

theorem sameModCaseList_cons_right {c : Char} {cs ds : List Char}
    (h : sameModCaseList (c :: cs) ds) :
    ∃ d ds', ds = d :: ds' ∧ sameModCase c d ∧ sameModCaseList cs ds' := by
  cases ds with
  | nil => exact False.elim h
  | cons d ds' => exact ⟨d, ds', rfl, h.1, h.2⟩

theorem sameModCaseLists_nil_right {gs : List (List Char)} (h : sameModCaseLists [] gs) :
    gs = [] := by
  cases gs with
  | nil => rfl
  | cons g gs => exact False.elim h

theorem sameModCaseLists_cons_right {g : List Char} {gs gs' : List (List Char)}
    (h : sameModCaseLists (g :: gs) gs') :
    ∃ g1 gs1, gs' = g1 :: gs1 ∧ sameModCaseList g g1 ∧ sameModCaseLists gs gs1 := by
  cases gs' with
  | nil => exact False.elim h
  | cons g1 gs1 => exact ⟨g1, gs1, rfl, h.1, h.2⟩

theorem ne_of_toNat_ne {c e : Char} (h : c.toNat ≠ e.toNat) : c ≠ e :=
  fun he => h (congrArg Char.toNat he)

theorem colon_toNat : Char.toNat ':' = 58 := by decide

theorem plus_toNat : Char.toNat '+' = 43 := by decide

theorem isHex_of_bounds {c : Char}
    (h : 48 ≤ c.toNat ∧ c.toNat ≤ 57 ∨ 65 ≤ c.toNat ∧ c.toNat ≤ 70 ∨
      97 ≤ c.toNat ∧ c.toNat ≤ 102) : isHexDigitChar c = true := by
  unfold isHexDigitChar
  simp only [Bool.or_eq_true, Bool.and_eq_true, decide_eq_true_eq]
  omega

theorem sameModCase_transport {c d : Char} (h : sameModCase c d) :
    hexDigitVal c = hexDigitVal d ∧ isHexDigitChar c = isHexDigitChar d ∧
      ((c = ':') ↔ (d = ':')) ∧ ((c = '+') ↔ (d = '+')) := by
  rcases h with rfl | ⟨h1, h2, h3⟩ | ⟨h1, h2, h3⟩
  · exact ⟨rfl, rfl, Iff.rfl, Iff.rfl⟩
  · refine ⟨?_,
      (isHex_of_bounds (by omega)).trans (isHex_of_bounds (by omega)).symm,
      iff_of_false (ne_of_toNat_ne (by rw [colon_toNat]; omega))
        (ne_of_toNat_ne (by rw [colon_toNat]; omega)),
      iff_of_false (ne_of_toNat_ne (by rw [plus_toNat]; omega))
        (ne_of_toNat_ne (by rw [plus_toNat]; omega))⟩
    unfold hexDigitVal
    rw [if_neg (by omega), if_pos (show 65 ≤ c.toNat ∧ c.toNat ≤ 70 by omega),
      if_neg (by omega), if_neg (by omega),
      if_pos (show 97 ≤ d.toNat ∧ d.toNat ≤ 102 by omega)]
    congr 1
    omega
  · refine ⟨?_,
      (isHex_of_bounds (by omega)).trans (isHex_of_bounds (by omega)).symm,
      iff_of_false (ne_of_toNat_ne (by rw [colon_toNat]; omega))
        (ne_of_toNat_ne (by rw [colon_toNat]; omega)),
      iff_of_false (ne_of_toNat_ne (by rw [plus_toNat]; omega))
        (ne_of_toNat_ne (by rw [plus_toNat]; omega))⟩
    unfold hexDigitVal
    rw [if_neg (by omega), if_neg (by omega),
      if_pos (show 97 ≤ c.toNat ∧ c.toNat ≤ 102 by omega),
      if_neg (by omega), if_pos (show 65 ≤ d.toNat ∧ d.toNat ≤ 70 by omega)]
    congr 1
    omega

theorem beq_colon_congr {c d : Char} (h : (c = ':') ↔ (d = ':')) :
    (c == ':') = (d == ':') := by
  by_cases hc : c = ':'
  · simp [hc, h.mp hc]
  · have hd : d ≠ ':' := fun e => hc (h.mpr e)
    simp [hc, hd]

theorem matchGroups_congr : ∀ (n : Nat) (cs ds : List Char), sameModCaseList cs ds →
    matchGroups n cs = matchGroups n ds := by
  intro n
  induction n with
  | zero =>
    intro cs ds h
    rcases cs with _ | ⟨a, _ | ⟨b, _ | ⟨c, rest⟩⟩⟩
    · rw [sameModCaseList_nil_right h]
    · obtain ⟨a', ds1, rfl, haa, h1⟩ := sameModCaseList_cons_right h
      rw [sameModCaseList_nil_right h1]
      rfl
    · obtain ⟨a', ds1, rfl, haa, h1⟩ := sameModCaseList_cons_right h
      obtain ⟨b', ds2, rfl, hbb, h2⟩ := sameModCaseList_cons_right h1
      rw [sameModCaseList_nil_right h2]
      simp [matchGroups, (sameModCase_transport haa).2.1, (sameModCase_transport hbb).2.1]
    · obtain ⟨a', ds1, rfl, haa, h1⟩ := sameModCaseList_cons_right h
      obtain ⟨b', ds2, rfl, hbb, h2⟩ := sameModCaseList_cons_right h1
      obtain ⟨c', ds3, rfl, hcc, h3⟩ := sameModCaseList_cons_right h2
      rfl
  | succ k ih =>
    intro cs ds h
    rcases cs with _ | ⟨a, _ | ⟨b, _ | ⟨c, rest⟩⟩⟩
    · rw [sameModCaseList_nil_right h]
    · obtain ⟨a', ds1, rfl, haa, h1⟩ := sameModCaseList_cons_right h
      rw [sameModCaseList_nil_right h1]
      rfl
    · obtain ⟨a', ds1, rfl, haa, h1⟩ := sameModCaseList_cons_right h
      obtain ⟨b', ds2, rfl, hbb, h2⟩ := sameModCaseList_cons_right h1
      rw [sameModCaseList_nil_right h2]
      rfl
    · obtain ⟨a', ds1, rfl, haa, h1⟩ := sameModCaseList_cons_right h
      obtain ⟨b', ds2, rfl, hbb, h2⟩ := sameModCaseList_cons_right h1
      obtain ⟨c', ds3, rfl, hcc, h3⟩ := sameModCaseList_cons_right h2
      simp only [matchGroups]
      rw [(sameModCase_transport haa).2.1, (sameModCase_transport hbb).2.1,
        beq_colon_congr (sameModCase_transport hcc).2.2.1, ih rest ds3 h3]

theorem splitOnColon_congr : ∀ (cs ds : List Char), sameModCaseList cs ds →
    sameModCaseLists (splitOnColon cs) (splitOnColon ds) := by
  intro cs
  induction cs with
  | nil =>
    intro ds h
    rw [sameModCaseList_nil_right h]
    exact ⟨trivial, trivial⟩
  | cons c cs' ih =>
    intro ds h
    obtain ⟨d, ds', rfl, hcd, h'⟩ := sameModCaseList_cons_right h
    cases h1 : splitOnColon cs' with
    | nil => exact absurd h1 (splitOnColon_ne_nil cs')
    | cons g gs =>
      cases h2 : splitOnColon ds' with
      | nil => exact absurd h2 (splitOnColon_ne_nil ds')
      | cons g' gs' =>
        have hrel : sameModCaseLists (g :: gs) (g' :: gs') := by
          rw [← h1, ← h2]
          exact ih ds' h'
        by_cases hc : c = ':'
        · have hd : d = ':' := (sameModCase_transport hcd).2.2.1.mp hc
          simp only [splitOnColon, h1, h2, hc, hd, if_pos]
          exact ⟨trivial, hrel.1, hrel.2⟩
        · have hd : d ≠ ':' := fun e => hc ((sameModCase_transport hcd).2.2.1.mpr e)
          simp only [splitOnColon, h1, h2, if_neg hc, if_neg hd]
          exact ⟨⟨hcd, hrel.1⟩, hrel.2⟩

theorem from_str_radix_go_congr : ∀ (cs ds : List Char) (acc : Nat), sameModCaseList cs ds →
    from_str_radix_go cs acc = from_str_radix_go ds acc := by
  intro cs
  induction cs with
  | nil =>
    intro ds acc h
    rw [sameModCaseList_nil_right h]
  | cons c cs' ih =>
    intro ds acc h
    obtain ⟨d, ds', rfl, hcd, h'⟩ := sameModCaseList_cons_right h
    have hv : hexDigitVal c = hexDigitVal d := (sameModCase_transport hcd).1
    cases hd : hexDigitVal d with
    | none => simp [from_str_radix_go, hv, hd]
    | some v =>
      rw [from_str_radix_go_cons _ _ (hv.trans hd), from_str_radix_go_cons _ _ hd]
      by_cases hle : acc * 16 + v ≤ 255
      · rw [if_pos hle, if_pos hle]
        exact ih ds' _ h'
      · rw [if_neg hle, if_neg hle]

theorem from_str_radix_congr {cs ds : List Char} (h : sameModCaseList cs ds) :
    from_str_radix_16_u8 cs = from_str_radix_16_u8 ds := by
  cases cs with
  | nil =>
    rw [sameModCaseList_nil_right h]
  | cons c cs' =>
    obtain ⟨d, ds', rfl, hcd, h'⟩ := sameModCaseList_cons_right h
    simp only [from_str_radix_16_u8]
    by_cases hc : c = '+'
    · have hd : d = '+' := (sameModCase_transport hcd).2.2.2.mp hc
      rw [if_pos hc, if_pos hd]
      cases cs' with
      | nil =>
        rw [sameModCaseList_nil_right h']
      | cons e es =>
        obtain ⟨e', es', rfl, hee, h''⟩ := sameModCaseList_cons_right h'
        show from_str_radix_go (e :: es) 0 = from_str_radix_go (e' :: es') 0
        exact from_str_radix_go_congr _ _ 0 ⟨hee, h''⟩
    · have hd : d ≠ '+' := fun e => hc ((sameModCase_transport hcd).2.2.2.mpr e)
      rw [if_neg hc, if_neg hd]
      exact from_str_radix_go_congr _ _ 0 ⟨hcd, h'⟩

theorem collectResults_congr : ∀ (gs gs' : List (List Char)), sameModCaseLists gs gs' →
    collectResults gs = collectResults gs' := by
  intro gs
  induction gs with
  | nil =>
    intro gs' h
    rw [sameModCaseLists_nil_right h]
  | cons g tl ih =>
    intro gs' h
    obtain ⟨g1, gs1, rfl, hg, htl⟩ := sameModCaseLists_cons_right h
    simp only [collectResults]
    rw [from_str_radix_congr hg, ih gs1 htl]

/-- C8: parsing is case-insensitive on hex digits: two inputs that differ only
in the letter case of their hex digits parse to identical results. -/
theorem C8_parse_case_insensitive (cs ds : List Char) (h : sameModCaseList cs ds) :
    Mac.from_str cs = Mac.from_str ds := by
  have hm : valid_mac_is_match cs = valid_mac_is_match ds := matchGroups_congr 5 cs ds h
  have hc : collectResults (splitOnColon cs) = collectResults (splitOnColon ds) :=
    collectResults_congr _ _ (splitOnColon_congr cs ds h)
  unfold Mac.from_str
  rw [hm, hc]

/-- Witness for C8: `"FF:FF:FF:FF:FF:FF"` and `"ff:ff:ff:ff:ff:ff"` parse
identically. -/
theorem C8_parse_case_insensitive_witness :
    Mac.from_str ['F', 'F', ':', 'F', 'F', ':', 'F', 'F', ':', 'F', 'F', ':', 'F', 'F', ':',
        'F', 'F'] =
      Mac.from_str ['f', 'f', ':', 'f', 'f', ':', 'f', 'f', ':', 'f', 'f', ':', 'f', 'f', ':',
        'f', 'f'] :=
  C8_parse_case_insensitive
    ['F', 'F', ':', 'F', 'F', ':', 'F', 'F', ':', 'F', 'F', ':', 'F', 'F', ':', 'F', 'F']
    ['f', 'f', ':', 'f', 'f', ':', 'f', 'f', ':', 'f', 'f', ':', 'f', 'f', ':', 'f', 'f']
    (by decide)

/-- C9: `build_packet` is deterministic: its result is a function of the
address bytes alone, so two calls on the same address give identical bytes. -/
theorem C9_build_packet_deterministic (m1 m2 : Mac)
    (h : Mac.as_bytes m1 = Mac.as_bytes m2) :
    build_packet m1 = build_packet m2 := by
  unfold build_packet
  rw [h]

/-- Witness for C9 at a concrete address. -/
theorem C9_build_packet_deterministic_witness :
    build_packet (Mac.new (1, 2, 3, 4, 5, 6)) = build_packet (Mac.new (1, 2, 3, 4, 5, 6)) :=
  C9_build_packet_deterministic (Mac.new (1, 2, 3, 4, 5, 6)) (Mac.new (1, 2, 3, 4, 5, 6)) rfl

/-- `Ipv4Addr`: four octets. -/
structure Ipv4Addr where
  o0 : Nat
  o1 : Nat
  o2 : Nat
  o3 : Nat
deriving DecidableEq

/-- `SocketAddrV4::new(ip, port)`. -/
structure SocketAddrV4 where
  ip : Ipv4Addr
  port : Nat
deriving DecidableEq

/-- The local bind address `0.0.0.0:0` used by `send_packet`. -/
def wildcardAddr : SocketAddrV4 :=
  ⟨⟨0, 0, 0, 0⟩, 0⟩

/-- Opaque cause of an OS-level network failure (the boxed error). -/
abbrev NetError := Nat

/-- Behaviour of the OS socket layer: what `UdpSocket::bind` and `send_to`
return for given arguments; a socket is an opaque handle. -/
structure NetBehavior where
  bind : SocketAddrV4 → Except NetError Nat
  send_to : Nat → List Nat → SocketAddrV4 → Except NetError Nat

/-- Observable socket-lifecycle events of one `send_packet` call. -/
inductive NetEvent where
  | bound (laddr : SocketAddrV4) (sock : Nat)
  | sent (sock : Nat) (bytes : List Nat) (dest : SocketAddrV4)
  | closed (sock : Nat)
deriving DecidableEq

/-- Rust range slicing `p[lo..hi]`: `none` models the out-of-bounds panic. -/
def rangeSlice (p : List Nat) (lo hi : Nat) : Option (List Nat) :=
  if lo ≤ hi ∧ hi ≤ p.length then some ((p.drop lo).take (hi - lo)) else none

/-- `send_packet`: bind a fresh socket at `0.0.0.0:0`, send `p[0..102]` to `r`
as one datagram, return `Ok(true)`. A `none` result models the panic of the
slice `p[0..102]`. The trace records the socket's lifecycle; the socket is a
scoped value that Rust drops (closes) on every exit path from the function,
including unwinding from the panic. -/
def send_packet (net : NetBehavior) (p : List Nat) (r : SocketAddrV4) :
    Option (Except NetError Bool) × List NetEvent :=
  match net.bind wildcardAddr with
  | Except.error e => (some (Except.error e), [])
  | Except.ok sock =>
    match rangeSlice p 0 102 with
    | none => (none, [NetEvent.bound wildcardAddr sock, NetEvent.closed sock])
    | some bytes =>
      match net.send_to sock bytes r with
      | Except.error e =>
        (some (Except.error e), [NetEvent.bound wildcardAddr sock, NetEvent.closed sock])
      | Except.ok _ =>
        (some (Except.ok true),
          [NetEvent.bound wildcardAddr sock, NetEvent.sent sock bytes r,
            NetEvent.closed sock])

theorem rangeSlice_full {p : List Nat} (h : 102 ≤ p.length) :
    rangeSlice p 0 102 = some (p.take 102) := by
  unfold rangeSlice
  rw [if_pos ⟨Nat.zero_le _, h⟩]
  simp

theorem rangeSlice_short {p : List Nat} (h : p.length < 102) :
    rangeSlice p 0 102 = none := by
  unfold rangeSlice
  rw [if_neg (by omega)]

/-- A network behaviour on which bind yields socket `0` and every send is
accepted. -/
def exNet : NetBehavior where
  bind := fun _ => Except.ok 0
  send_to := fun _ _ _ => Except.ok 0

/-- An example destination, `255.255.255.255:9`. -/
def exAddr : SocketAddrV4 :=
  ⟨⟨255, 255, 255, 255⟩, 9⟩

/-- C4: when the bind and the send both succeed, `send_packet` hands exactly
the first 102 bytes of `p` to the network stack as a single datagram addressed
to `r`, and returns `Ok(true)`; moreover no run ever returns `Ok(false)`. -/
theorem C4_send_packet_ok (net : NetBehavior) (p : List Nat) (r : SocketAddrV4)
    (sock n : Nat) (hlen : 102 ≤ p.length)
    (hbind : net.bind wildcardAddr = Except.ok sock)
    (hsend : net.send_to sock (p.take 102) r = Except.ok n) :
    send_packet net p r =
      (some (Except.ok true),
        [NetEvent.bound wildcardAddr sock, NetEvent.sent sock (p.take 102) r,
          NetEvent.closed sock]) ∧
    ∀ (net' : NetBehavior) (p' : List Nat) (r' : SocketAddrV4) (b : Bool),
      (send_packet net' p' r').1 = some (Except.ok b) → b = true := by
  constructor
  · simp only [send_packet, hbind, rangeSlice_full hlen, hsend]
  · intro net' p' r' b hb
    cases h1 : net'.bind wildcardAddr with
    | error e => simp [send_packet, h1] at hb
    | ok s =>
      cases h2 : rangeSlice p' 0 102 with
      | none => simp [send_packet, h1, h2] at hb
      | some bytes =>
        cases h3 : net'.send_to s bytes r' with
        | error e => simp [send_packet, h1, h2, h3] at hb
        | ok k =>
          simp [send_packet, h1, h2, h3] at hb
          exact hb

/-- Witness for C4 on a 102-byte packet and an always-succeeding network. -/
theorem C4_send_packet_ok_witness :
    send_packet exNet (List.replicate 102 0) exAddr =
      (some (Except.ok true),
        [NetEvent.bound wildcardAddr 0,
          NetEvent.sent 0 ((List.replicate 102 0).take 102) exAddr,
          NetEvent.closed 0]) :=
  (C4_send_packet_ok exNet (List.replicate 102 0) exAddr 0 0 (by simp) rfl rfl).1

/-- C6: `send_packet` is partial in its packet argument: on any packet shorter
than 102 bytes, once the bind has handed it a socket, the slice `p[0..102]` is
out of bounds and the call panics instead of returning an error. -/
theorem C6_short_packet_panics (net : NetBehavior) (p : List Nat) (r : SocketAddrV4)
    (sock : Nat) (hbind : net.bind wildcardAddr = Except.ok sock)
    (hshort : p.length < 102) :
    (send_packet net p r).1 = none := by
  simp only [send_packet, hbind, rangeSlice_short hshort]

/-- Witness for C6 on the empty packet. -/
theorem C6_short_packet_panics_witness :
    (send_packet exNet [] exAddr).1 = none :=
  C6_short_packet_panics exNet [] exAddr 0 rfl (by decide)

/-- C10: the socket is scoped to the single call: any socket bound during
`send_packet` was bound to the wildcard address `0.0.0.0:0`, and the trace
also closes it, on every exit path. -/
theorem C10_socket_scoped (net : NetBehavior) (p : List Nat) (r : SocketAddrV4)
    (laddr : SocketAddrV4) (sock : Nat)
    (hmem : NetEvent.bound laddr sock ∈ (send_packet net p r).2) :
    laddr = wildcardAddr ∧ NetEvent.closed sock ∈ (send_packet net p r).2 := by
  cases h1 : net.bind wildcardAddr with
  | error e => simp [send_packet, h1] at hmem
  | ok s =>
    cases h2 : rangeSlice p 0 102 with
    | none =>
      simp [send_packet, h1, h2] at hmem ⊢
      obtain ⟨rfl, rfl⟩ := hmem
      simp
    | some bytes =>
      cases h3 : net.send_to s bytes r with
      | error e =>
        simp [send_packet, h1, h2, h3] at hmem ⊢
        obtain ⟨rfl, rfl⟩ := hmem
        simp
      | ok k =>
        simp [send_packet, h1, h2, h3] at hmem ⊢
        obtain ⟨rfl, rfl⟩ := hmem
        simp

/-- Witness for C10: the bound socket of a concrete run is bound to the
wildcard address and closed in the same trace. -/
theorem C10_socket_scoped_witness :
    wildcardAddr = wildcardAddr ∧
      NetEvent.closed 0 ∈ (send_packet exNet ([] : List Nat) exAddr).2 :=
  C10_socket_scoped exNet [] exAddr wildcardAddr 0 (by decide)

/-- The options `main` reads from getopts: `help` (`-h`), `mac` (`-m`) and
`bcast` (`-b`). -/
structure CliMatches where
  help : Bool
  mac : Option (List Char)
  bcast : Option (List Char)

/-- Which message `main` prints on an exit path. -/
inductive MainMsg where
  | usage
  | argsErr
  | macErr
  | ipErr
  | buildErr
  | sendErr
deriving DecidableEq

/-- Outcome of `main`: an explicit `process::exit(code)` after printing `msg`,
a normal return after the confirmation message (success status), or a panic. -/
inductive MainOutcome where
  | exited (msg : MainMsg) (code : Nat)
  | completed
  | panicked
deriving DecidableEq

/-- Control flow of `main` after argument collection. `parseResult` stands for
the result of `opts.parse(&args[1..])` (getopts, external to this repository)
and `ipParse` for `Ipv4Addr::from_str` (std); the rest follows the source. -/
def main_flow (parseResult : Except Nat CliMatches)
    (ipParse : List Char → Except Nat Ipv4Addr) (net : NetBehavior) : MainOutcome :=
  match parseResult with
  | Except.error _ => MainOutcome.exited MainMsg.argsErr 1
  | Except.ok ms =>
    if ms.help then MainOutcome.exited MainMsg.usage 0
    else
      match ms.mac with
      | none => MainOutcome.exited MainMsg.usage 0
      | some mstr =>
        match Mac.from_str mstr with
        | Except.error _ => MainOutcome.exited MainMsg.macErr 1
        | Except.ok mac =>
          match ms.bcast with
          | none => MainOutcome.exited MainMsg.usage 0
          | some bstr =>
            match ipParse bstr with
            | Except.error _ => MainOutcome.exited MainMsg.ipErr 1
            | Except.ok bcast =>
              match build_packet mac with
              | Except.error _ => MainOutcome.exited MainMsg.buildErr 1
              | Except.ok magic_packet =>
                match (send_packet net magic_packet (SocketAddrV4.mk bcast 9)).1 with
                | none => MainOutcome.panicked
                | some (Except.error _) => MainOutcome.exited MainMsg.sendErr 1
                | some (Except.ok _) => MainOutcome.completed

/-- An IP parser for witnesses that accepts everything. -/
def exIpParse : List Char → Except Nat Ipv4Addr :=
  fun _ => Except.ok ⟨255, 255, 255, 255⟩

/-- C7: a missing required option makes `main` print the usage text and exit
with status 0, while an argument-parse failure, a hardware-address parse
failure, a packet-build failure or a transmission failure each print a
diagnostic and exit with status 1. -/
theorem C7_cli_exit_paths (ipParse : List Char → Except Nat Ipv4Addr) (net : NetBehavior) :
    (∀ e, main_flow (Except.error e) ipParse net = MainOutcome.exited MainMsg.argsErr 1) ∧
    (∀ ms, ms.help = false → ms.mac = none →
      main_flow (Except.ok ms) ipParse net = MainOutcome.exited MainMsg.usage 0) ∧
    (∀ ms s mac, ms.help = false → ms.mac = some s → Mac.from_str s = Except.ok mac →
      ms.bcast = none →
      main_flow (Except.ok ms) ipParse net = MainOutcome.exited MainMsg.usage 0) ∧
    (∀ ms s e, ms.help = false → ms.mac = some s → Mac.from_str s = Except.error e →
      main_flow (Except.ok ms) ipParse net = MainOutcome.exited MainMsg.macErr 1) ∧
    (∀ ms s mac e bs, ms.help = false → ms.mac = some s → Mac.from_str s = Except.ok mac →
      ms.bcast = some bs → ∀ ip, ipParse bs = Except.ok ip →
      build_packet mac = Except.error e →
      main_flow (Except.ok ms) ipParse net = MainOutcome.exited MainMsg.buildErr 1) ∧
    (∀ ms s mac bs ip pkt e, ms.help = false → ms.mac = some s →
      Mac.from_str s = Except.ok mac → ms.bcast = some bs → ipParse bs = Except.ok ip →
      build_packet mac = Except.ok pkt →
      (send_packet net pkt (SocketAddrV4.mk ip 9)).1 = some (Except.error e) →
      main_flow (Except.ok ms) ipParse net = MainOutcome.exited MainMsg.sendErr 1) := by
  refine ⟨fun e => rfl, ?_, ?_, ?_, ?_, ?_⟩
  · intro ms hh hm
    simp [main_flow, hh, hm]
  · intro ms s mac hh hm hp hb
    simp [main_flow, hh, hm, hp, hb]
  · intro ms s e hh hm hp
    simp [main_flow, hh, hm, hp]
  · intro ms s mac e bs hh hm hp hb ip hip hbuild
    simp [main_flow, hh, hm, hp, hb, hip, hbuild]
  · intro ms s mac bs ip pkt e hh hm hp hb hip hbuild hsend
    simp [main_flow, hh, hm, hp, hb, hip, hbuild, hsend]

/-- Witness for C7: concrete runs of the argument-failure path, of the
missing-hardware-address path (usage text, exit status 0), and of the
invalid-hardware-address path (diagnostic, exit status 1). -/
theorem C7_cli_exit_paths_witness :
    main_flow (Except.error 0) exIpParse exNet = MainOutcome.exited MainMsg.argsErr 1 ∧
    main_flow (Except.ok ⟨false, none, none⟩) exIpParse exNet =
      MainOutcome.exited MainMsg.usage 0 ∧
    main_flow (Except.ok ⟨false, some [':', ':', ':', ':', ':'], none⟩) exIpParse exNet =
      MainOutcome.exited MainMsg.macErr 1 :=
  ⟨(C7_cli_exit_paths exIpParse exNet).1 0,
   (C7_cli_exit_paths exIpParse exNet).2.1 ⟨false, none, none⟩ rfl rfl,
   (C7_cli_exit_paths exIpParse exNet).2.2.2.1 ⟨false, some [':', ':', ':', ':', ':'], none⟩
     [':', ':', ':', ':', ':'] ParseError.InvalidInput rfl rfl (by decide)⟩

end Wol
